import Mathlib

/-!
Verification of the row-transformation pipeline of `concat_mmy.py` and the
year-parsing helper of `concatenate_description.py` (repository
`benjitbear/globe_pim`), via a shallow embedding.

Python strings are modelled as `List Char` (ASCII semantics for
upper-casing, whitespace and digits, which covers all data this program
manipulates).  A pandas cell is modelled by `Cell`: `Cell.na` is a missing
value (a pandas `NaN`), `Cell.str` a string cell, `Cell.int` a numeric
cell.  Fallible Python code (an uncaught exception) is modelled by an
explicit outcome constructor rather than by raising.
-/

/-- ASCII whitespace characters recognised by Python `str.strip` and the
regex class in this program's data. -/
def pyWs (c : Char) : Bool :=
  c = ' ' || c = '\t' || c = '\n' || c = '\r' || c = '\x0b' || c = '\x0c'

/-- Python `str.upper` on one ASCII character. -/
def upChar (c : Char) : Char :=
  if 97 ≤ c.toNat ∧ c.toNat ≤ 122 then Char.ofNat (c.toNat - 32) else c

/-- Python `str.upper` on a string. -/
def upStr (l : List Char) : List Char := l.map upChar

/-- Python `str.strip`: drop leading and trailing whitespace. -/
def stripWs (l : List Char) : List Char :=
  ((l.dropWhile pyWs).reverse.dropWhile pyWs).reverse

/-- Python `' '.join`: join a list of strings with single spaces. -/
def joinSpace : List (List Char) → List Char
  | [] => []
  | [x] => x
  | x :: y :: rest => x ++ ' ' :: joinSpace (y :: rest)

/-- Digit run value, for Python `int` of a digit string. -/
def digitsToNat (ds : List Char) : Nat :=
  ds.foldl (fun a c => a * 10 + (c.toNat - 48)) 0

/-- Parse a nonempty all-digit run, else `none`. -/
def parseDigits (ds : List Char) : Option Nat :=
  if ds ≠ [] ∧ ds.all Char.isDigit then some (digitsToNat ds) else none

/-- Python `int(s)` on a string: optional surrounding whitespace, optional
sign, then a nonempty digit run; anything else raises (`none`). -/
def parseIntStr (l : List Char) : Option Int :=
  match stripWs l with
  | '+' :: ds => (parseDigits ds).map Int.ofNat
  | '-' :: ds => (parseDigits ds).map (fun n => -(n : Int))
  | ds => (parseDigits ds).map Int.ofNat

/-- Decimal rendering of an integer, as Python `str`/f-strings produce. -/
def intRepr (n : Int) : List Char :=
  if n < 0 then '-' :: Nat.toDigits 10 (-n).toNat else Nat.toDigits 10 n.toNat

/-- One spreadsheet cell as pandas hands it to the row loop: a missing
value (`NaN`), a string, or an integer. -/
inductive Cell where
  | na : Cell
  | str (s : List Char) : Cell
  | int (n : Int) : Cell

deriving instance DecidableEq for Cell

/-- `pd.isna` on a cell. -/
def Cell.isNa : Cell → Bool
  | .na => true
  | _ => false

/-- Python `str(x)` of a cell value; `str` of a pandas `NaN` is `"nan"`. -/
def pyStr (c : Cell) : List Char :=
  match c with
  | .na => 'n' :: 'a' :: 'n' :: []
  | .str s => s
  | .int n => intRepr n

/-- Python `int(x)` of a cell value (`none` models a raised
`ValueError`/`TypeError`). -/
def pyInt (c : Cell) : Option Int :=
  match c with
  | .na => none
  | .str s => parseIntStr s
  | .int n => some n

/-- One input row: the five named columns read by `process_excel_data`
plus the values of the `EXO PART NUMBER` columns in their column order. -/
structure Row where
  make : Cell
  model : Cell
  year_text : Cell
  body_type : Cell
  doors : Cell
  parts : List Cell

deriving instance DecidableEq for Row

/-- One emitted output row (the dict appended to `output_data`). -/
structure OutRec where
  stockcode : Cell
  make : Cell
  model : Cell
  year : Cell
  doors : Cell
  bodyType : List Char
  description : List Char

deriving instance DecidableEq for OutRec

/-- The module-level `body_type_mapping` table, in declaration order
(Python dicts preserve insertion order). -/
def bodyTypeMapping : List (List Char × List Char) :=
  [ ("SEDAN".toList, "SDN".toList),
    ("HATCHBACK".toList, "HBK".toList),
    ("WAGON".toList, "WGN".toList),
    ("COUPE".toList, "CPE".toList),
    ("CABRIOLET".toList, "CBL".toList),
    ("ROADSTER".toList, "RDS".toList),
    ("SUV".toList, "SUV".toList),
    ("SPORTSBACK".toList, "SBK".toList),
    ("SPORTS BACK".toList, "SBK".toList),
    ("UTE".toList, "UTE".toList),
    ("LIFTBACK".toList, "LBK".toList),
    ("LIFT BACK".toList, "LBK".toList),
    ("VAN".toList, "VAN".toList),
    ("CONVERTIBLE".toList, "CNV".toList),
    ("CONV".toList, "CNV".toList),
    ("QUATTRO".toList, "QTR".toList),
    ("TRUCK".toList, "TRK".toList),
    ("BUS".toList, "BUS".toList) ]

/-- Python `pat in s` (substring membership), by scanning positions left
to right. -/
def containsSub (pat : List Char) : List Char → Bool
  | [] => pat.isEmpty
  | c :: rest => pat.isPrefixOf (c :: rest) || containsSub pat rest

/-- The scanning loop of Python `s.replace(pat, repl)`: at each position,
if `pat` starts here, emit `repl` and continue after the match, else copy
one character.  `fuel` bounds the recursion; `s.length` is always enough
when `pat` is nonempty. -/
def raLoop (pat repl : List Char) : Nat → List Char → List Char
  | 0, s => s
  | _ + 1, [] => []
  | fuel + 1, c :: rest =>
    if pat.isPrefixOf (c :: rest) then
      repl ++ raLoop pat repl fuel ((c :: rest).drop pat.length)
    else
      c :: raLoop pat repl fuel rest

/-- Python `s.replace(pat, repl)` for a nonempty `pat` (every pattern in
`body_type_mapping` is nonempty, so the empty-pattern case never arises in
this program; it is mapped to the identity here). -/
def replaceAll (s pat repl : List Char) : List Char :=
  if pat = [] then s else raLoop pat repl s.length s

/-- The body-type substitution loop (lines 78-83 of `concat_mmy.py`):
for each table pair in order, the pattern is tested for membership in the
ORIGINAL upper-cased string `raw`, and on success all its occurrences in
the cumulative string are replaced. -/
def mapBodyType (raw : List Char) : List Char :=
  bodyTypeMapping.foldl
    (fun mapped kv =>
      if containsSub (upStr kv.1) raw then replaceAll mapped (upStr kv.1) kv.2
      else mapped)
    raw

/-- `pd.isna` applied to a Python `str` value: always `False`.  The skip
check of line 69 applies `pd.isna` to `body_type_raw`, which has already
been converted by `str(...)`, so this arm of the check never fires. -/
def pdIsnaOfStr (_ : List Char) : Bool := false

/-- The mapped body type of a row (the value of `body_type_mapped`). -/
def bodyOf (row : Row) : List Char :=
  mapBodyType (upStr (pyStr row.body_type))

/-- `str(x) if pd.notna(x) else ''`. -/
def strField (c : Cell) : List Char :=
  if c.isNa then [] else pyStr c

/-- The doors fragment of the description (lines 90-97): present only when
`doors` is non-missing and `int(doors)` succeeds; a failed conversion is
caught there and contributes nothing. -/
def doorFragList (doors : Cell) : List (List Char) :=
  if doors.isNa then []
  else
    match pyInt doors with
    | some n => [intRepr n ++ 'D' :: 'R' :: []]
    | none => []

/-- The description of a row (lines 89-100): join the non-empty parts with
single spaces and strip the result. -/
def descOf (row : Row) : List Char :=
  stripWs (joinSpace
    ((([strField row.make, strField row.model, strField row.year_text] ++
        doorFragList row.doors ++ [bodyOf row]).filter (fun p => p ≠ []))))

/-- The `DOORS` output field (line 113): `int(doors)` when `doors` is
non-missing — which RAISES when the conversion fails (`none`) — and the
empty string when `doors` is missing. -/
def doorsOutField (doors : Cell) : Option Cell :=
  if doors.isNa then some (Cell.str [])
  else
    match pyInt doors with
    | some n => some (Cell.int n)
    | none => none

/-- The output record built for one populated part-number column
(lines 108-116). -/
def mkOutRec (row : Row) (body desc : List Char) (dcell : Cell) (c : Cell) :
    OutRec :=
  { stockcode := c,
    make := if row.make.isNa then Cell.str [] else row.make,
    model := if row.model.isNa then Cell.str [] else row.model,
    year := if row.year_text.isNa then Cell.str [] else row.year_text,
    doors := dcell,
    bodyType := if stripWs body ≠ [] then body else [],
    description := desc }

/-- The emission loop over the part-number columns (lines 105-116):
one record per non-missing stock code, in column order; `none` models the
uncaught exception raised by `int(doors)` in the `DOORS` field. -/
def emitRecs (row : Row) (body desc : List Char) :
    List Cell → Option (List OutRec)
  | [] => some []
  | c :: rest =>
    if c.isNa then emitRecs row body desc rest
    else
      match doorsOutField row.doors with
      | none => none
      | some dcell =>
        match emitRecs row body desc rest with
        | none => none
        | some recs => some (mkOutRec row body desc dcell c :: recs)

/-- Outcome of the per-row body of the loop: row skipped for missing core
data, records emitted, or an exception escaping the row (which the code
does not catch inside the loop). -/
inductive RowOutcome where
  | skipped
  | ok (recs : List OutRec)
  | exn

deriving instance DecidableEq for RowOutcome

/-- The body of the row loop (lines 59-116) for one row. -/
def processRow (row : Row) : RowOutcome :=
  let bodyTypeRaw := upStr (pyStr row.body_type)
  if row.make.isNa || row.model.isNa || row.year_text.isNa ||
      pdIsnaOfStr bodyTypeRaw then
    .skipped
  else
    match emitRecs row (mapBodyType bodyTypeRaw) (descOf row) row.parts with
    | none => .exn
    | some recs => .ok recs

/-- Result of the whole run: either the accumulated `output_data`, or an
aborted run (an exception reached the outer `except Exception` handler,
which logs and discards everything). -/
inductive RunResult where
  | done (out : List OutRec)
  | aborted

deriving instance DecidableEq for RunResult

/-- The row loop over the whole table, in input order. -/
def processRows : List Row → RunResult
  | [] => .done []
  | r :: rs =>
    match processRow r with
    | .exn => .aborted
    | .skipped => processRows rs
    | .ok recs =>
      match processRows rs with
      | .aborted => .aborted
      | .done out => .done (recs ++ out)

/-! ### Concrete rows used in the theorems below -/

/-- A fully populated, well-formed row (the spec's running example). -/
def toyotaRow : Row :=
  { make := .str "Toyota".toList, model := .str "Corolla".toList,
    year_text := .str "2020".toList, body_type := .str "Hatchback".toList,
    doors := .int 4, parts := [.str "A1".toList] }

/-- The spec's doors-unparseable example row: all core fields present,
`doors = "N/A"`, one populated part-number column. -/
def doorsNARow : Row :=
  { make := .str "Toyota".toList, model := .str "Corolla".toList,
    year_text := .str "2020".toList, body_type := .str "Hatchback".toList,
    doors := .str "N/A".toList, parts := [.str "A1".toList] }

/-- A row whose `body_type` cell is missing (`NaN`), all other core
fields present, one populated part-number column. -/
def noBodyRow : Row :=
  { make := .str "Toyota".toList, model := .str "Corolla".toList,
    year_text := .str "2020".toList, body_type := .na,
    doors := .na, parts := [.str "A1".toList] }

/-- A row whose `make` cell is missing. -/
def noMakeRow : Row :=
  { make := .na, model := .str "Corolla".toList,
    year_text := .str "2020".toList, body_type := .str "Hatchback".toList,
    doors := .na, parts := [.str "A1".toList] }

/-- Claim C1: the claim says a row whose `doors` value fails integer
parsing is still emitted (door fragment omitted) and the failure never
escapes the per-row step.  The code violates this: the description does
omit the fragment, but `int(doors)` in the `DOORS` output field
(line 113) raises an uncaught `ValueError` as soon as a populated
part-number column is reached, aborting the whole run, including all
subsequent rows. -/
theorem C1_doors_unparseable_aborts_run :
    processRows [doorsNARow, toyotaRow] = RunResult.aborted ∧
    descOf doorsNARow =
      ('T' :: "oyota Corolla 2020 HBK".toList) :=
  ⟨rfl, rfl⟩

/-- Claim C2: the claim says a row missing `body_type` is skipped with
zero OutputRecords, as for the other three core fields.  The code
violates this for `body_type` only: the skip check applies `pd.isna` to
`str(row.get('body_type', '')).upper()`, which is always a string, so the
check never fires; the missing cell becomes the literal body type
`"NAN"` and the row IS emitted.  (A missing `make` does skip, as the
second conjunct shows.) -/
theorem C2_missing_body_type_is_not_skipped :
    processRow noBodyRow =
      RowOutcome.ok
        [{ stockcode := Cell.str ('A' :: '1' :: []),
           make := Cell.str ('T' :: "oyota".toList),
           model := Cell.str ('C' :: "orolla".toList),
           year := Cell.str ('2' :: "020".toList),
           doors := Cell.str [],
           bodyType := 'N' :: 'A' :: 'N' :: [],
           description := ('T' :: "oyota Corolla 2020 NAN".toList) }] ∧
    processRow noMakeRow = RowOutcome.skipped :=
  ⟨rfl, rfl⟩

/-! ### Claim C3: which string is the pattern tested against? -/

/-- Pair-by-pair substitution, testing each pattern against the fixed
ORIGINAL string `raw` (what lines 79-81 do), written as plain recursion
over the table. -/
def applyPairsOriginal (raw : List Char) :
    List (List Char × List Char) → List Char → List Char
  | [], mapped => mapped
  | kv :: rest, mapped =>
    applyPairsOriginal raw rest
      (if containsSub (upStr kv.1) raw then replaceAll mapped (upStr kv.1) kv.2
       else mapped)

/-- The substitution procedure as claim C3 words it: each pattern is
tested for occurrence in the CURRENT, cumulatively substituted string. -/
def applyPairsCurrent :
    List (List Char × List Char) → List Char → List Char
  | [], mapped => mapped
  | kv :: rest, mapped =>
    applyPairsCurrent rest
      (if containsSub (upStr kv.1) mapped then
        replaceAll mapped (upStr kv.1) kv.2
       else mapped)

/-- Claim C3's described procedure over the whole table. -/
def mapBodyTypeClaimCurrent (raw : List Char) : List Char :=
  applyPairsCurrent bodyTypeMapping raw

/-- The table-order fold of the code coincides with the recursive
presentation that tests against the original string. -/
theorem foldl_eq_applyPairsOriginal (raw : List Char) :
    ∀ (table : List (List Char × List Char)) (mapped : List Char),
      table.foldl
        (fun m kv =>
          if containsSub (upStr kv.1) raw then replaceAll m (upStr kv.1) kv.2
          else m)
        mapped = applyPairsOriginal raw table mapped := by
  intro table
  induction table with
  | nil => intro mapped; rfl
  | cons kv rest ih =>
    intro mapped
    simp only [List.foldl_cons, applyPairsOriginal]
    exact ih _

/-- Claim C3, counterexample: on body type `"QUATTROUCK"` the code maps
`QUATTRO → QTR` (present in the original) but then does NOT apply
`TRUCK → TRK` to the `"QTRUCK"` this produced, because `"TRUCK"` does not
occur in the original string; the claimed test-against-current procedure
would.  So the claim's description of the procedure is false at this
input. -/
theorem C3_counterexample_test_is_against_original :
    mapBodyType ('Q' :: "UATTROUCK".toList) = ('Q' :: "TRUCK".toList) ∧
    mapBodyTypeClaimCurrent ('Q' :: "UATTROUCK".toList) =
      ('Q' :: "TRK".toList) ∧
    mapBodyType ('Q' :: "UATTROUCK".toList) ≠
      mapBodyTypeClaimCurrent ('Q' :: "UATTROUCK".toList) := by
  refine ⟨rfl, rfl, ?_⟩
  decide

/-- Claim C3, amended: pairs are iterated in table-declaration order, but
each pattern is tested for substring occurrence in the ORIGINAL
upper-cased body-type string; when it occurs there, all occurrences of
the pattern in the current, cumulatively substituted string are replaced
(so text inserted by an earlier replacement is affected by a later pair
only if that pair's pattern also occurs in the original string). -/
theorem C3_amended_test_against_original (raw : List Char) :
    mapBodyType raw = applyPairsOriginal raw bodyTypeMapping raw :=
  foldl_eq_applyPairsOriginal raw bodyTypeMapping raw

/-- Witness for the amended C3 theorem at a concrete body type. -/
theorem C3_amended_test_against_original_witness :
    mapBodyType ('S' :: "PORTS BACK".toList) =
      applyPairsOriginal ('S' :: "PORTS BACK".toList) bodyTypeMapping
        ('S' :: "PORTS BACK".toList) :=
  C3_amended_test_against_original ('S' :: "PORTS BACK".toList)

/-! ### Claim C4: fan-out over part-number columns -/

/-- The `DOORS` cell actually stored when no exception occurs. -/
def doorsCellOf (doors : Cell) : Cell :=
  if doors.isNa then Cell.str []
  else
    match pyInt doors with
    | some n => Cell.int n
    | none => Cell.str []

/-- When `doors` is missing or parses, the `DOORS` field evaluates
without raising, to `doorsCellOf doors`. -/
theorem doorsOutField_eq_some (doors : Cell)
    (hd : doors.isNa = true ∨ (pyInt doors).isSome = true) :
    doorsOutField doors = some (doorsCellOf doors) := by
  rcases hd with hd | hd
  · simp [doorsOutField, doorsCellOf, hd]
  · rcases Option.isSome_iff_exists.mp hd with ⟨n, hn⟩
    by_cases hna : doors.isNa <;> simp [doorsOutField, doorsCellOf, hna, hn]

/-- The emission loop yields one record per non-missing part cell, in
column order, when the `DOORS` field does not raise. -/
theorem emitRecs_eq_map (row : Row) (body desc : List Char) (dcell : Cell)
    (hd : doorsOutField row.doors = some dcell) :
    ∀ parts : List Cell,
      emitRecs row body desc parts =
        some ((parts.filter (fun c => !c.isNa)).map
          (mkOutRec row body desc dcell)) := by
  intro parts
  induction parts with
  | nil => rfl
  | cons c rest ih =>
    by_cases hna : c.isNa <;> simp [emitRecs, hna, hd, ih]

/-- Claim C4, amended: for every row whose core fields are present AND
whose `doors` value is missing or parses as an integer, the row yields
exactly one OutputRecord per non-missing part-number column, in column
order, all sharing the one description computed for the row; columns with
missing values contribute nothing, and zero populated columns yield
`ok []` (no error).  (Without the doors condition the code aborts, see
the counterexample.) -/
theorem C4_one_record_per_part_column (row : Row)
    (hm : row.make.isNa = false) (hmo : row.model.isNa = false)
    (hy : row.year_text.isNa = false)
    (hd : row.doors.isNa = true ∨ (pyInt row.doors).isSome = true) :
    processRow row =
      RowOutcome.ok ((row.parts.filter (fun c => !c.isNa)).map
        (mkOutRec row (bodyOf row) (descOf row) (doorsCellOf row.doors))) := by
  have hdf := doorsOutField_eq_some row.doors hd
  have he := emitRecs_eq_map row (bodyOf row) (descOf row)
    (doorsCellOf row.doors) hdf row.parts
  simp only [processRow, hm, hmo, hy, pdIsnaOfStr, Bool.or_false,
    Bool.false_or, Bool.or_self, if_false]
  rw [show mapBodyType (upStr (pyStr row.body_type)) = bodyOf row from rfl, he]
  simp

/-- A second doors-unparseable row (distinct from C1's), showing claim C4
false as stated: all core fields are present, two part-number columns are
populated, yet the transformation aborts with an exception instead of
emitting two records. -/
def doorsWordRow : Row :=
  { make := .str "Ford".toList, model := .str "Focus".toList,
    year_text := .str "2018".toList, body_type := .str "Sedan".toList,
    doors := .str "two".toList,
    parts := [.str "B7".toList, .str "B8".toList] }

/-- Claim C4, counterexample: a row with all core fields present and two
populated part-number columns on which the code raises instead of
emitting two OutputRecords. -/
theorem C4_counterexample_doors_aborts_fanout :
    processRow doorsWordRow = RowOutcome.exn := rfl

/-- A row with a missing part cell between two populated ones. -/
def mazdaRow : Row :=
  { make := .str "Mazda".toList, model := .str "3".toList,
    year_text := .str "2019".toList, body_type := .str "Hatchback".toList,
    doors := .na, parts := [.str "P1".toList, .na, .str "P2".toList] }

/-- Witness for the amended C4 theorem: the `Mazda` row emits exactly its
two populated part columns, in order, sharing one description. -/
theorem C4_one_record_per_part_column_witness :
    processRow mazdaRow =
      RowOutcome.ok ((mazdaRow.parts.filter (fun c => !c.isNa)).map
        (mkOutRec mazdaRow (bodyOf mazdaRow) (descOf mazdaRow)
          (doorsCellOf mazdaRow.doors))) :=
  C4_one_record_per_part_column mazdaRow rfl rfl rfl (Or.inl rfl)

/-! ### Claim C5: the description formula -/

/-- `joinSpace` is intercalation with a single space. -/
theorem joinSpace_eq_intercalate :
    ∀ l : List (List Char), joinSpace l = List.intercalate (' ' :: []) l := by
  intro l
  induction l with
  | nil => rfl
  | cons x rest ih =>
    cases rest with
    | nil => simp [joinSpace, List.intercalate, List.intersperse]
    | cons y rest' =>
      simp only [joinSpace, ih, List.intercalate, List.intersperse,
        List.flatten_cons]
      simp

/-- The spec's door-count fragment: `"{N}DR"` exactly when doors is
present and parses as an integer, otherwise nothing. -/
def specDoorFrag (doors : Cell) : List (List Char) :=
  match (if doors.isNa then none else pyInt doors) with
  | some n => [intRepr n ++ ('D' :: 'R' :: [])]
  | none => []

/-- The description as the spec words it: join make, model, year, door
fragment and mapped body type in fixed order with a single space
separator, omitting empty parts, and trim the result. -/
def specDescription (row : Row) : List Char :=
  stripWs (List.intercalate (' ' :: [])
    (([strField row.make, strField row.model, strField row.year_text] ++
        specDoorFrag row.doors ++ [bodyOf row]).filter (fun p => p ≠ [])))

/-- The code's door fragment agrees with the spec's. -/
theorem doorFragList_eq_spec (doors : Cell) :
    doorFragList doors = specDoorFrag doors := by
  by_cases h : doors.isNa <;> simp [doorFragList, specDoorFrag, h]

/-- The code's description agrees with the spec's formula on every row. -/
theorem descOf_eq_specDescription (row : Row) :
    descOf row = specDescription row := by
  unfold descOf specDescription
  rw [joinSpace_eq_intercalate, doorFragList_eq_spec]

/-- Every record the emission loop produces carries the description it
was given. -/
theorem emitRecs_description (row : Row) (body desc : List Char) :
    ∀ (parts : List Cell) (recs : List OutRec),
      emitRecs row body desc parts = some recs →
      ∀ rec ∈ recs, rec.description = desc := by
  intro parts
  induction parts with
  | nil =>
    intro recs h rec hrec
    simp only [emitRecs, Option.some.injEq] at h
    subst h
    simp at hrec
  | cons c rest ih =>
    intro recs h rec hrec
    by_cases hna : c.isNa
    · simp only [emitRecs, hna, if_true] at h
      exact ih recs h rec hrec
    · cases hdo : doorsOutField row.doors with
      | none => simp [emitRecs, hna, hdo] at h
      | some dcell =>
        cases he : emitRecs row body desc rest with
        | none => simp [emitRecs, hna, hdo, he] at h
        | some recs2 =>
          simp only [emitRecs, hna, hdo, he, Bool.false_eq_true, if_false,
            Option.some.injEq] at h
          subst h
          rcases List.mem_cons.mp hrec with hh | hh
          · subst hh; rfl
          · exact ih recs2 he rec hh

/-- Claim C5: for every emitted row, each record's description equals the
spec's formula — the space-joined, empty-part-omitting, trimmed concatenation
of make, model, year, the `"{N}DR"` fragment (present exactly when doors
parses), and the mapped body type; and on the spec's Toyota example the
description is `"Toyota Corolla 2020 4DR HBK"`. -/
theorem C5_description_matches_spec :
    (∀ (row : Row) (recs : List OutRec), processRow row = RowOutcome.ok recs →
      ∀ rec ∈ recs, rec.description = specDescription row) ∧
    descOf toyotaRow = "Toyota Corolla 2020 4DR HBK".toList := by
  constructor
  · intro row recs h rec hrec
    rw [← descOf_eq_specDescription]
    unfold processRow at h
    by_cases hskip :
        (row.make.isNa || row.model.isNa || row.year_text.isNa ||
          pdIsnaOfStr (upStr (pyStr row.body_type))) = true
    · rw [if_pos hskip] at h; cases h
    · rw [if_neg hskip] at h
      cases he : emitRecs row (mapBodyType (upStr (pyStr row.body_type)))
          (descOf row) row.parts with
      | none => rw [he] at h; cases h
      | some recs2 =>
        rw [he] at h
        simp only [RowOutcome.ok.injEq] at h
        subst h
        exact emitRecs_description row _ (descOf row) row.parts recs2 he rec
          hrec
  · rfl

/-- Witness for C5 at the Toyota example row. -/
theorem C5_description_matches_spec_witness :
    (mkOutRec toyotaRow (bodyOf toyotaRow) (descOf toyotaRow)
        (doorsCellOf toyotaRow.doors)
        (Cell.str ('A' :: '1' :: []))).description =
      specDescription toyotaRow :=
  C5_description_matches_spec.1 toyotaRow
    [mkOutRec toyotaRow (bodyOf toyotaRow) (descOf toyotaRow)
        (doorsCellOf toyotaRow.doors) (Cell.str ('A' :: '1' :: []))]
    rfl _ (List.mem_singleton.mpr rfl)

/-! ### Claim C6: upper-casing before matching -/

/-- `Char.ofNat` of a valid scalar value round-trips through `toNat`. -/
theorem toNat_charOfNat (n : Nat) (h : n.isValidChar) :
    (Char.ofNat n).toNat = n := by
  simp [Char.ofNat, h, Char.ofNatAux, Char.toNat, UInt32.toNat]

/-- ASCII upper-casing is idempotent on characters. -/
theorem upChar_idem (c : Char) : upChar (upChar c) = upChar c := by
  unfold upChar
  by_cases h : 97 ≤ c.toNat ∧ c.toNat ≤ 122
  · rw [if_pos h]
    have hv : (c.toNat - 32).isValidChar := Or.inl (by omega)
    rw [if_neg]
    rw [toNat_charOfNat _ hv]
    omega
  · rw [if_neg h, if_neg h]

/-- ASCII upper-casing is idempotent on strings. -/
theorem upStr_idem (s : List Char) : upStr (upStr s) = upStr s := by
  simp only [upStr, List.map_map]
  exact List.map_congr_left (fun c _ => upChar_idem c)

/-- Claim C6: the body-type cell is upper-cased before any matching
(first conjunct: the pipeline's mapped body type is `mapBodyType` of the
upper-cased cell string); matching is case-insensitive — strings equal up
to case map identically, and upper-casing the input first changes
nothing; the table's pattern keys are already upper-case, so upper-casing
the key compares upper against upper; and on the spec's example,
`"4 DOOR SEDAN"` (in any input case) maps to `"4 DOOR SDN"`. -/
theorem C6_uppercased_before_matching :
    (∀ row : Row, bodyOf row = mapBodyType (upStr (pyStr row.body_type))) ∧
    (∀ s t : List Char, upStr s = upStr t →
      mapBodyType (upStr s) = mapBodyType (upStr t)) ∧
    (∀ s : List Char, mapBodyType (upStr (upStr s)) = mapBodyType (upStr s)) ∧
    bodyTypeMapping.all (fun kv => upStr kv.1 == kv.1) = true ∧
    mapBodyType (upStr ("4 door Sedan".toList)) = "4 DOOR SDN".toList ∧
    mapBodyType (upStr ("4 DOOR SEDAN".toList)) = "4 DOOR SDN".toList := by
  refine ⟨fun _ => rfl, fun s t h => by rw [h], fun s => by rw [upStr_idem],
    by decide, rfl, rfl⟩

/-- Witness for C6: two case-variants of the same body type map to the
same abbreviation. -/
theorem C6_uppercased_before_matching_witness :
    mapBodyType (upStr ("4 door sedan".toList)) =
      mapBodyType (upStr ("4 DOOR Sedan".toList)) :=
  C6_uppercased_before_matching.2.1 ("4 door sedan".toList)
    ("4 DOOR Sedan".toList) rfl

/-! ### Claims C8 and C9: purity, dependency and output order -/

/-- Every record of an emitted row carries the row's description. -/
theorem processRow_ok_description (row : Row) (recs : List OutRec)
    (h : processRow row = RowOutcome.ok recs) :
    ∀ rec ∈ recs, rec.description = descOf row := by
  intro rec hrec
  unfold processRow at h
  by_cases hskip :
      (row.make.isNa || row.model.isNa || row.year_text.isNa ||
        pdIsnaOfStr (upStr (pyStr row.body_type))) = true
  · rw [if_pos hskip] at h; cases h
  · rw [if_neg hskip] at h
    cases he : emitRecs row (mapBodyType (upStr (pyStr row.body_type)))
        (descOf row) row.parts with
    | none => rw [he] at h; cases h
    | some recs2 =>
      rw [he] at h
      simp only [RowOutcome.ok.injEq] at h
      subst h
      exact emitRecs_description row _ (descOf row) row.parts recs2 he rec hrec

/-- The `toyotaRow` with no part-number columns populated. -/
def toyotaRowNoParts : Row :=
  { make := .str "Toyota".toList, model := .str "Corolla".toList,
    year_text := .str "2020".toList, body_type := .str "Hatchback".toList,
    doors := .int 4, parts := [] }

/-- Claim C8: the transformation is a pure function (re-running it gives
the same value), and every description depends only on the row's make,
model, year, doors and body-type fields together with the fixed table:
rows agreeing on those five fields get identical descriptions, and every
emitted record's description is the row's description. -/
theorem C8_pure_and_field_dependent :
    (∀ rows : List Row, processRows rows = processRows rows) ∧
    (∀ r1 r2 : Row, r1.make = r2.make → r1.model = r2.model →
      r1.year_text = r2.year_text → r1.doors = r2.doors →
      r1.body_type = r2.body_type → descOf r1 = descOf r2) ∧
    (∀ (row : Row) (recs : List OutRec), processRow row = RowOutcome.ok recs →
      ∀ rec ∈ recs, rec.description = descOf row) := by
  refine ⟨fun _ => rfl, ?_, processRow_ok_description⟩
  intro r1 r2 h1 h2 h3 h4 h5
  simp only [descOf, bodyOf]
  rw [h1, h2, h3, h4, h5]

/-- Witness for C8: two rows differing only in their part-number columns
share one description. -/
theorem C8_pure_and_field_dependent_witness :
    descOf toyotaRow = descOf toyotaRowNoParts :=
  C8_pure_and_field_dependent.2.1 toyotaRow toyotaRowNoParts rfl rfl rfl rfl
    rfl

/-- The records one row contributes to the output (empty for a skipped
row). -/
def rowRecords (r : Row) : List OutRec :=
  match processRow r with
  | .ok recs => recs
  | _ => []

/-- The emission loop's stock codes are the non-missing part cells, in
column order. -/
theorem emitRecs_stockcodes (row : Row) (body desc : List Char) :
    ∀ (parts : List Cell) (recs : List OutRec),
      emitRecs row body desc parts = some recs →
      recs.map (fun rec => rec.stockcode) =
        parts.filter (fun c => !c.isNa) := by
  intro parts
  induction parts with
  | nil =>
    intro recs h
    simp only [emitRecs, Option.some.injEq] at h
    subst h
    rfl
  | cons c rest ih =>
    intro recs h
    by_cases hna : c.isNa
    · simp only [emitRecs, hna, if_true] at h
      simp [List.filter_cons, hna, ih recs h]
    · cases hdo : doorsOutField row.doors with
      | none => simp [emitRecs, hna, hdo] at h
      | some dcell =>
        cases he : emitRecs row body desc rest with
        | none => simp [emitRecs, hna, hdo, he] at h
        | some recs2 =>
          simp only [emitRecs, hna, hdo, he, Bool.false_eq_true, if_false,
            Option.some.injEq] at h
          subst h
          simp [List.filter_cons, hna, mkOutRec, ih recs2 he]

/-- Claim C9: the output preserves order — the whole output is the
row-by-row concatenation of each row's records in input order, and within
one row the stock codes are exactly the populated part-number columns in
their given order. -/
theorem C9_output_preserves_order :
    (∀ (rows : List Row) (out : List OutRec),
      processRows rows = RunResult.done out →
      out = (rows.map rowRecords).flatten) ∧
    (∀ (row : Row) (recs : List OutRec), processRow row = RowOutcome.ok recs →
      recs.map (fun rec => rec.stockcode) =
        row.parts.filter (fun c => !c.isNa)) := by
  constructor
  · intro rows
    induction rows with
    | nil =>
      intro out h
      simp only [processRows, RunResult.done.injEq] at h
      subst h
      rfl
    | cons r rs ih =>
      intro out h
      unfold processRows at h
      cases hr : processRow r with
      | exn => rw [hr] at h; cases h
      | skipped =>
        rw [hr] at h
        simp only [List.map_cons, List.flatten_cons, rowRecords, hr]
        exact ih out h
      | ok recs =>
        rw [hr] at h
        cases hrs : processRows rs with
        | aborted => rw [hrs] at h; cases h
        | done out2 =>
          rw [hrs] at h
          simp only [RunResult.done.injEq] at h
          subst h
          simp only [List.map_cons, List.flatten_cons, rowRecords, hr]
          rw [ih out2 hrs]
  · intro row recs h
    unfold processRow at h
    by_cases hskip :
        (row.make.isNa || row.model.isNa || row.year_text.isNa ||
          pdIsnaOfStr (upStr (pyStr row.body_type))) = true
    · rw [if_pos hskip] at h; cases h
    · rw [if_neg hskip] at h
      cases he : emitRecs row (mapBodyType (upStr (pyStr row.body_type)))
          (descOf row) row.parts with
      | none => rw [he] at h; cases h
      | some recs2 =>
        rw [he] at h
        simp only [RowOutcome.ok.injEq] at h
        subst h
        exact emitRecs_stockcodes row _ _ row.parts recs2 he

/-- Witness for C9 on a concrete two-row table. -/
theorem C9_output_preserves_order_witness :
    rowRecords toyotaRow ++ rowRecords mazdaRow =
      (([toyotaRow, mazdaRow].map rowRecords)).flatten ∧
    (rowRecords mazdaRow).map (fun rec => rec.stockcode) =
      mazdaRow.parts.filter (fun c => !c.isNa) :=
  ⟨(C9_output_preserves_order.1 [toyotaRow, mazdaRow]
      (rowRecords toyotaRow ++ rowRecords mazdaRow) rfl).symm,
    C9_output_preserves_order.2 mazdaRow (rowRecords mazdaRow) rfl⟩

/-! ### Claim C10: `parse_year` of `concatenate_description.py`

The pattern is `\s*(\d{1,2})[/\\](\d{2,4})[-\s]+`, applied with
`re.search` (leftmost match, greedy quantifiers with backtracking).  The
matcher below implements exactly that search, specialised to this
pattern, over ASCII text: `\s*` is a maximal munch (whitespace and digits
are disjoint, so no shorter munch can succeed), the month tries two
digits then one, the year tries four, three, then two digits, each
requiring one `[-\s]` character after it. -/

/-- The character class `[/\\]`. -/
def slashClass (c : Char) : Bool := c = '/' || c = '\\'

/-- The character class `[-\s]`. -/
def dashWsClass (c : Char) : Bool := c = '-' || pyWs c

/-- Match exactly `n` digits at the head, returning them and the rest. -/
def tryDigits (n : Nat) (l : List Char) : Option (List Char × List Char) :=
  if (l.take n).length = n ∧ (l.take n).all Char.isDigit then
    some (l.take n, l.drop n)
  else none

/-- Match `n` year digits followed by at least one `[-\s]` character. -/
def tryYearLen (n : Nat) (l : List Char) : Option (List Char) :=
  match tryDigits n l with
  | none => none
  | some (ds, rest) =>
    match rest with
    | c :: _ => if dashWsClass c then some ds else none
    | [] => none

/-- Greedy `(\d{2,4})[-\s]+`: four digits, else three, else two. -/
def matchYearPart (l : List Char) : Option (List Char) :=
  match tryYearLen 4 l with
  | some ds => some ds
  | none =>
    match tryYearLen 3 l with
    | some ds => some ds
    | none => tryYearLen 2 l

/-- `[/\\](\d{2,4})[-\s]+` after the month digits. -/
def matchAfterMonth (l : List Char) : Option (List Char) :=
  match l with
  | c :: rest => if slashClass c then matchYearPart rest else none
  | [] => none

/-- Month of exactly `n` digits, then the rest of the pattern. -/
def tryMonthLen (n : Nat) (l : List Char) : Option (List Char × List Char) :=
  match tryDigits n l with
  | none => none
  | some (ds, rest) => (matchAfterMonth rest).map (fun y => (ds, y))

/-- One anchored attempt of the whole pattern (greedy `\s*`, then a
two-digit month, else a one-digit month). -/
def matchAt (l : List Char) : Option (List Char × List Char) :=
  match tryMonthLen 2 (l.dropWhile pyWs) with
  | some r => some r
  | none => tryMonthLen 1 (l.dropWhile pyWs)

/-- `re.search`: try the pattern at each position, left to right. -/
def reSearch : List Char → Option (List Char × List Char)
  | [] => matchAt []
  | c :: rest =>
    match matchAt (c :: rest) with
    | some r => some r
    | none => reSearch rest

/-- `parse_year` (lines 42-49 of `concatenate_description.py`): on a
match return `f"{month}/{year}"`, else return the input unchanged. -/
def parse_year (l : List Char) : List Char :=
  match reSearch l with
  | some (m, y) => m ++ '/' :: y
  | none => l

/-- Claim C10: `parse_year` returns `month ++ "/" ++ year` from the first
(leftmost) match of the pattern — a 1-2 digit month, `/` or `\`
separator, 2-4 digit year followed by a hyphen or whitespace — and is the
identity on every string with no match.  The examples check a `\`
separator rendered as `/`, the leftmost-greedy month choice on
`"123/45- "`, and the identity on a matchless string. -/
theorem C10_parse_year_first_match_or_identity :
    (∀ l m y : List Char, reSearch l = some (m, y) →
      parse_year l = m ++ '/' :: y) ∧
    (∀ l : List Char, reSearch l = none → parse_year l = l) ∧
    parse_year ("12\\85-x".toList) = "12/85".toList ∧
    parse_year ("123/45- ".toList) = "23/45".toList ∧
    parse_year ("hello 2020".toList) = "hello 2020".toList := by
  refine ⟨?_, ?_, rfl, rfl, rfl⟩
  · intro l m y h
    simp [parse_year, h]
  · intro l h
    simp [parse_year, h]

/-- Witness for C10 at a concrete matching string. -/
theorem C10_parse_year_first_match_or_identity_witness :
    parse_year (" 3/2020 x".toList) = "3".toList ++ '/' :: "2020".toList :=
  C10_parse_year_first_match_or_identity.1 (" 3/2020 x".toList) ("3".toList)
    ("2020".toList) rfl

/-! ### Claim C7: order sensitivity and per-pair idempotence

Idempotence of one substitution pair needs a no-reintroduction argument:
replacing all occurrences of `pat` can never create a new occurrence of
`pat`, for each pair of the table.  `NoReintro` captures sufficient
overlap conditions, checked by `decide` per pair; the scan lemma
`raLoop_no_occurrence` carries the invariant `Safe` — no occurrence of the
pattern begins inside the already-scanned text — which is what rules out
occurrences re-formed across a replacement boundary (for
`ROADSTER → RDS` the dangerous overlap `R` is preempted by the
left-to-right scan). -/

/-- `containsSub` decides substring (infix) occurrence. -/
theorem containsSub_iff_occurs (pat : List Char) :
    ∀ t : List Char, containsSub pat t = true ↔ pat <:+: t := by
  intro t
  induction t with
  | nil => simp [containsSub, List.infix_nil, List.isEmpty_iff]
  | cons c rest ih =>
    simp [containsSub, List.infix_cons_iff, List.isPrefixOf_iff_prefix, ih]

/-- Overlap conditions on a pair under which replacement cannot re-create
the pattern: the pattern does not occur inside the replacement; no
nonempty proper prefix of the pattern is a suffix of the replacement; a
proper suffix of the pattern that is a prefix of the replacement must
also be a prefix of the pattern (the scan then preempts the match); and
the replacement is not an interior factor of the pattern. -/
def NoReintro (pat repl : List Char) : Prop :=
  containsSub pat repl = false ∧
  (∀ k < pat.length, 0 < k → k ≤ repl.length →
    repl.drop (repl.length - k) ≠ pat.take k) ∧
  (∀ k < pat.length, 0 < k → k ≤ repl.length →
    pat.drop (pat.length - k) = repl.take k →
    pat.take k = pat.drop (pat.length - k)) ∧
  (∀ i < pat.length, 0 < i → i + repl.length < pat.length →
    (pat.drop i).take repl.length ≠ repl)

instance (pat repl : List Char) : Decidable (NoReintro pat repl) := by
  unfold NoReintro
  exact @instDecidableAnd _ _ inferInstance
    (@instDecidableAnd _ _ inferInstance
      (@instDecidableAnd _ _ inferInstance inferInstance))

/-- Scanning invariant: in the text `pre ++ s`, no occurrence of `pat`
begins inside the already-scanned prefix `pre`. -/
def Safe (pat pre s : List Char) : Prop :=
  ∀ v w, pre = v ++ w → w ≠ [] → ¬ pat <+: (w ++ s)

/-- At the end of the text, `Safe` means `pat` does not occur in the
scanned prefix at all. -/
theorem not_infix_of_safe_nil (pat pre : List Char) (hpat : pat ≠ [])
    (hsafe : Safe pat pre []) : ¬ pat <:+: pre := by
  rintro ⟨a, b, hab⟩
  refine hsafe a (pat ++ b) (by rw [← hab, List.append_assoc]) ?_ ?_
  · intro hemp
    exact hpat (List.append_eq_nil.mp hemp).1
  · rw [List.append_assoc]
    exact List.prefix_append pat (b ++ [])

/-- `Safe` is preserved when the scan copies one non-matching
character. -/
theorem safe_snoc (pat pre rest : List Char) (c : Char)
    (hsafe : Safe pat pre (c :: rest)) (hnp : ¬ pat <+: (c :: rest)) :
    Safe pat (pre ++ [c]) rest := by
  intro v w hsplit hw hpref
  rcases List.append_eq_append_iff.mp hsplit with ⟨a, hva, ha⟩ | ⟨b, hpb, hwb⟩
  · cases a with
    | nil =>
      simp only [List.nil_append] at ha
      subst ha
      exact hnp (by simpa using hpref)
    | cons x xs =>
      exfalso
      apply hw
      rw [List.cons_append] at ha
      injection ha with h1 h2
      exact (List.append_eq_nil.mp h2.symm).2
  · subst hwb
    cases b with
    | nil => exact hnp (by simpa using hpref)
    | cons x xs =>
      refine hsafe v (x :: xs) hpb (by simp) ?_
      simpa [List.append_assoc] using hpref

/-- A pattern occurrence cannot begin inside an inserted replacement
copy: `w` is a suffix of `repl`, so a pattern starting at `w` would
either sit inside `repl` (first condition) or hang a nonempty proper
prefix of the pattern on a suffix of `repl` (second condition). -/
theorem not_prefix_of_repl_suffix (pat repl s' : List Char)
    (h1 : containsSub pat repl = false)
    (h2 : ∀ k < pat.length, 0 < k → k ≤ repl.length →
      repl.drop (repl.length - k) ≠ pat.take k)
    (a w : List Char) (hrepl : repl = a ++ w) (hw : w ≠ []) :
    ¬ pat <+: (w ++ s') := by
  intro hpref
  by_cases hlen : pat.length ≤ w.length
  · have hpw : pat = w.take pat.length := by
      have h := List.prefix_iff_eq_take.mp hpref
      rwa [List.take_append_of_le_length hlen] at h
    have hinf : pat <:+: repl := by
      obtain ⟨t, ht⟩ := List.prefix_iff_eq_take.mpr hpw
      exact ⟨a, t, by rw [hrepl, ← ht, List.append_assoc]⟩
    have hc := (containsSub_iff_occurs pat repl).mpr hinf
    rw [h1] at hc
    cases hc
  · push_neg at hlen
    have hk0 : 0 < w.length := List.length_pos.mpr hw
    have hkr : w.length ≤ repl.length := by
      rw [hrepl, List.length_append]; omega
    apply h2 w.length hlen hk0 hkr
    have hdrop : repl.drop (repl.length - w.length) = w := by
      rw [hrepl]
      have hlac : (a ++ w).length - w.length = a.length := by
        rw [List.length_append]; omega
      rw [hlac, List.drop_left]
    rw [hdrop]
    have h := List.prefix_iff_eq_take.mp hpref
    rw [List.take_append_eq_append_take,
      List.take_of_length_le (le_of_lt hlen)] at h
    rw [h, List.take_left]

/-- `Safe` is preserved across a replacement step: if `pat` matches at
the scan position (the remaining text is `pat ++ s'`) and `repl` is
emitted, no pattern occurrence begins inside `pre ++ repl`. -/
theorem safe_step_match (pat repl s' pre : List Char)
    (hnr : NoReintro pat repl) (hsafe : Safe pat pre (pat ++ s')) :
    Safe pat (pre ++ repl) s' := by
  obtain ⟨h1, h2, h3, h4⟩ := hnr
  intro v w hsplit hw hpref
  rcases List.append_eq_append_iff.mp hsplit with ⟨a, hva, ha⟩ | ⟨b, hpb, hwb⟩
  · exact not_prefix_of_repl_suffix pat repl s' h1 h2 a w ha hw hpref
  · subst hwb
    by_cases hbe : b = []
    · subst hbe
      simp only [List.nil_append] at hpref hw
      exact not_prefix_of_repl_suffix pat repl s' h1 h2 [] repl rfl hw hpref
    · rw [List.append_assoc] at hpref
      by_cases hlen : pat.length ≤ b.length
      · have hpb2 : pat = b.take pat.length := by
          have h := List.prefix_iff_eq_take.mp hpref
          rwa [List.take_append_of_le_length hlen] at h
        obtain ⟨t2, ht2⟩ := List.prefix_iff_eq_take.mpr hpb2
        refine hsafe v b hpb hbe ?_
        rw [← ht2, List.append_assoc]
        exact List.prefix_append pat _
      · push_neg at hlen
        have hbl : 0 < b.length := List.length_pos.mpr hbe
        have hb2 : b = pat.take b.length := by
          have h := List.prefix_iff_eq_take.mp hpref
          rw [List.take_append_eq_append_take,
            List.take_of_length_le (le_of_lt hlen)] at h
          rw [h, List.take_left]
        have hsplit2 : pat = b ++ pat.drop b.length := by
          conv_lhs => rw [← List.take_append_drop b.length pat]
          rw [← hb2]
        have ht : pat.drop b.length <+: repl ++ s' := by
          have h5 : b ++ pat.drop b.length <+: b ++ (repl ++ s') := by
            rw [← hsplit2]; exact hpref
          exact (List.prefix_append_right_inj b).mp h5
        have hdl : (pat.drop b.length).length = pat.length - b.length :=
          List.length_drop b.length pat
        by_cases hlen2 : (pat.drop b.length).length ≤ repl.length
        · have htake : pat.drop b.length =
              repl.take (pat.drop b.length).length := by
            have h := List.prefix_iff_eq_take.mp ht
            rwa [List.take_append_of_le_length hlen2] at h
          have harith : pat.length - (pat.length - b.length) = b.length := by
            omega
          have h3c := h3 (pat.length - b.length) (by omega) (by omega)
            (by omega)
          rw [harith] at h3c
          have h3r := h3c (by rw [← hdl]; exact htake)
          refine hsafe v b hpb hbe ?_
          apply List.prefix_iff_eq_take.mpr
          rw [List.take_append_eq_append_take,
            List.take_of_length_le (le_of_lt hlen),
            List.take_append_of_le_length
              (by omega : pat.length - b.length ≤ pat.length)]
          rw [h3r]
          exact hsplit2
        · push_neg at hlen2
          have hrt : repl = (pat.drop b.length).take repl.length := by
            have h := List.prefix_iff_eq_take.mp ht
            rw [List.take_append_eq_append_take,
              List.take_of_length_le (le_of_lt hlen2)] at h
            rw [h, List.take_left]
          exact h4 b.length hlen hbl (by omega) hrt.symm

/-- Main scan lemma: the replacement scan never leaves an occurrence of
the pattern in its output, given the `NoReintro` overlap conditions. -/
theorem raLoop_no_occurrence (pat repl : List Char) (hpat : pat ≠ [])
    (hnr : NoReintro pat repl) :
    ∀ (fuel : Nat) (s pre : List Char), s.length ≤ fuel →
      Safe pat pre s → ¬ pat <:+: (pre ++ raLoop pat repl fuel s) := by
  intro fuel
  induction fuel with
  | zero =>
    intro s pre hlen hsafe
    have hs : s = [] := List.length_eq_zero.mp (Nat.le_zero.mp hlen)
    subst hs
    simpa [raLoop] using not_infix_of_safe_nil pat pre hpat hsafe
  | succ fuel ih =>
    intro s pre hlen hsafe
    cases s with
    | nil => simpa [raLoop] using not_infix_of_safe_nil pat pre hpat hsafe
    | cons c rest =>
      by_cases hp : pat.isPrefixOf (c :: rest)
      · obtain ⟨s', hs'⟩ := List.isPrefixOf_iff_prefix.mp hp
        have hdrop : (c :: rest).drop pat.length = s' := by
          rw [← hs', List.drop_left]
        have hloop : raLoop pat repl (fuel + 1) (c :: rest) =
            repl ++ raLoop pat repl fuel s' := by
          simp [raLoop, hp, hdrop]
        rw [hloop, ← List.append_assoc]
        apply ih s' (pre ++ repl)
        · have hls := congrArg List.length hs'
          have hp1 : 0 < pat.length := List.length_pos.mpr hpat
          simp only [List.length_append, List.length_cons] at hls hlen ⊢
          omega
        · apply safe_step_match pat repl s' pre hnr
          rw [hs']
          exact hsafe
      · have hnpre : ¬ pat <+: (c :: rest) := fun hc =>
          hp (List.isPrefixOf_iff_prefix.mpr hc)
        have hloop : raLoop pat repl (fuel + 1) (c :: rest) =
            c :: raLoop pat repl fuel rest := by
          simp [raLoop, hp]
        rw [hloop,
          show pre ++ c :: raLoop pat repl fuel rest =
            (pre ++ [c]) ++ raLoop pat repl fuel rest by simp]
        apply ih rest (pre ++ [c])
        · simp only [List.length_cons] at hlen
          omega
        · exact safe_snoc pat pre rest c hsafe hnpre

/-- After `replaceAll`, the pattern no longer occurs. -/
theorem replaceAll_no_occurrence (s pat repl : List Char) (hpat : pat ≠ [])
    (hnr : NoReintro pat repl) : ¬ pat <:+: replaceAll s pat repl := by
  unfold replaceAll
  rw [if_neg hpat]
  have h := raLoop_no_occurrence pat repl hpat hnr s.length s [] le_rfl
    (fun v w hvw hw => absurd (List.append_eq_nil.mp hvw.symm).2 hw)
  simpa using h

/-- `replaceAll` is the identity when the pattern does not occur. -/
theorem raLoop_eq_self_of_no_occurrence (pat repl : List Char) :
    ∀ (fuel : Nat) (t : List Char), ¬ pat <:+: t →
      raLoop pat repl fuel t = t := by
  intro fuel
  induction fuel with
  | zero => intro t _; rfl
  | succ fuel ih =>
    intro t h
    cases t with
    | nil => rfl
    | cons c rest =>
      have h1 : ¬ pat.isPrefixOf (c :: rest) := fun hb =>
        h (List.infix_cons_iff.mpr (Or.inl (List.isPrefixOf_iff_prefix.mp hb)))
      have h2 : ¬ pat <:+: rest := fun hi =>
        h (List.infix_cons_iff.mpr (Or.inr hi))
      simp [raLoop, h1, ih rest h2]

/-- `replaceAll` is the identity when the pattern does not occur. -/
theorem replaceAll_eq_self_of_no_occurrence (t pat repl : List Char)
    (h : ¬ pat <:+: t) : replaceAll t pat repl = t := by
  unfold replaceAll
  by_cases hpat : pat = []
  · rw [if_pos hpat]
  · rw [if_neg hpat]
    exact raLoop_eq_self_of_no_occurrence pat repl t.length t h

/-- Replacing a pattern by itself changes nothing. -/
theorem raLoop_self (pat : List Char) (hpat : pat ≠ []) :
    ∀ (fuel : Nat) (s : List Char), s.length ≤ fuel →
      raLoop pat pat fuel s = s := by
  intro fuel
  induction fuel with
  | zero =>
    intro s hlen
    rfl
  | succ fuel ih =>
    intro s hlen
    cases s with
    | nil => rfl
    | cons c rest =>
      by_cases hp : pat.isPrefixOf (c :: rest)
      · obtain ⟨s', hs'⟩ := List.isPrefixOf_iff_prefix.mp hp
        have hdrop : (c :: rest).drop pat.length = s' := by
          rw [← hs', List.drop_left]
        have hlens : s'.length ≤ fuel := by
          have hls := congrArg List.length hs'
          have hp1 : 0 < pat.length := List.length_pos.mpr hpat
          simp only [List.length_append, List.length_cons] at hls hlen
          omega
        simp [raLoop, hp, hdrop, ih s' hlens, hs']
      · have hlen2 : rest.length ≤ fuel := by
          simp only [List.length_cons] at hlen; omega
        simp [raLoop, hp, ih rest hlen2]

/-- Replacing a pattern by itself changes nothing. -/
theorem replaceAll_self (s pat : List Char) : replaceAll s pat pat = s := by
  unfold replaceAll
  by_cases hpat : pat = []
  · rw [if_pos hpat]
  · rw [if_neg hpat]
    exact raLoop_self pat hpat s.length s le_rfl

/-- One application of a substitution pair as the code performs it on a
single string: test for occurrence, then replace all occurrences. -/
def applyOnce (p r s : List Char) : List Char :=
  if containsSub p s then replaceAll s p r else s

/-- Applying a substitution pair with a table key, as the loop of
lines 79-81 does for one pair: the key is upper-cased for both the test
and the replacement. -/
def stepPair (s : List Char) (kv : List Char × List Char) : List Char :=
  applyOnce (upStr kv.1) kv.2 s

/-- `applyOnce` is idempotent for pairs meeting the overlap conditions. -/
theorem applyOnce_idem_of_noReintro (p r : List Char) (hp : p ≠ [])
    (hnr : NoReintro p r) (s : List Char) :
    applyOnce p r (applyOnce p r s) = applyOnce p r s := by
  unfold applyOnce
  by_cases hc : containsSub p s
  · rw [if_pos hc]
    have hni := replaceAll_no_occurrence s p r hp hnr
    have hcf : containsSub p (replaceAll s p r) = false := by
      cases hh : containsSub p (replaceAll s p r) with
      | false => rfl
      | true => exact absurd ((containsSub_iff_occurs p _).mp hh) hni
    rw [if_neg (by simp [hcf])]
  · rw [if_neg hc, if_neg hc]

/-- `applyOnce` is idempotent for the identity pairs of the table. -/
theorem applyOnce_idem_self (p s : List Char) :
    applyOnce p p (applyOnce p p s) = applyOnce p p s := by
  unfold applyOnce
  by_cases hc : containsSub p s <;> simp [hc, replaceAll_self]

/-- The substitution loop run with the table pairs in REVERSE declaration
order (same per-pair semantics as the code's loop). -/
def mapBodyTypeRev (raw : List Char) : List Char :=
  bodyTypeMapping.reverse.foldl
    (fun mapped kv =>
      if containsSub (upStr kv.1) raw then replaceAll mapped (upStr kv.1) kv.2
      else mapped)
    raw

/-- Claim C7: pair order matters — on `"CONVERTIBLE"` declaration order
gives `"CNV"` (`CONVERTIBLE → CNV` first, `CONV` then finds nothing to
rewrite) while reverse order gives `"CNVERTIBLE"` (`CONV → CNV` fires
first and destroys the longer match) — yet applying any single table pair
twice in succession equals applying it once. -/
theorem C7_order_sensitive_pairs_idempotent :
    mapBodyType ('C' :: "ONVERTIBLE".toList) = "CNV".toList ∧
    mapBodyTypeRev ('C' :: "ONVERTIBLE".toList) = "CNVERTIBLE".toList ∧
    mapBodyType ('C' :: "ONVERTIBLE".toList) ≠
      mapBodyTypeRev ('C' :: "ONVERTIBLE".toList) ∧
    (∀ kv ∈ bodyTypeMapping, ∀ s : List Char,
      stepPair (stepPair s kv) kv = stepPair s kv) := by
  refine ⟨rfl, rfl, by decide, ?_⟩
  intro kv hkv s
  fin_cases hkv <;> simp only [stepPair] <;>
    first
      | exact applyOnce_idem_of_noReintro _ _ (by decide) (by decide) s
      | exact applyOnce_idem_self _ s

/-- Witness for C7: the `SEDAN → SDN` pair applied twice to a concrete
string equals one application. -/
theorem C7_order_sensitive_pairs_idempotent_witness :
    stepPair (stepPair ('A' :: " SEDAN CAR".toList)
        (("SEDAN".toList, "SDN".toList))) (("SEDAN".toList, "SDN".toList)) =
      stepPair ('A' :: " SEDAN CAR".toList)
        (("SEDAN".toList, "SDN".toList)) :=
  C7_order_sensitive_pairs_idempotent.2.2.2 (("SEDAN".toList, "SDN".toList))
    (by decide) ('A' :: " SEDAN CAR".toList)
